import Mathlib

/-!
Verification of the daily/hourly analytics ETL scripts
(src/fetch_hypurrfi_tvl.py and src/fetch_hypurrfi_revenue.py).

The Python scripts are shallowly embedded: JSON/Python runtime values are the
inductive type PyVal; floats are modelled as rationals; Unix timestamps are
integers; UTC calendar dates are modelled by their epoch-day number
(floor-division of the timestamp by 86400, exactly Python
datetime.fromtimestamp(ts, utc).date() up to the ISO rendering, whose
lexicographic order agrees with the day-number order); CSV files are modelled
as their structured row lists (the header is implicit, a header-only file is
the empty row list); a raised-and-unhandled Python exception is the crashed
run status, SystemExit is the fatalExit status.
-/

namespace Hypurrfi

/-- A Python runtime value as produced by json.loads, plus the distinctions
the scripts observe: ints vs floats, and strings that parse as an integer
literal, as a non-integer float literal, or as no number at all. -/
inductive PyVal where
  | vnull
  | vbool (b : Bool)
  | vint (n : Int)
  | vfloat (q : Rat)
  | vstrInt (n : Int)
  | vstrFloat (q : Rat)
  | vstrBad (s : String)
  | vlist (xs : List PyVal)
  | vdict (fs : List (String × PyVal))

/-- Python dict.get k (returning None when the key is absent): first binding
of the key in the association list, or null. -/
def dget (fs : List (String × PyVal)) (k : String) : PyVal :=
  match fs.lookup k with
  | some v => v
  | none => .vnull

/-- Python membership test k in dict. -/
def dmem (fs : List (String × PyVal)) (k : String) : Bool :=
  (fs.lookup k).isSome

/-- Python truthiness of a value. -/
def pyTruthy : PyVal → Bool
  | .vnull => false
  | .vbool b => b
  | .vint n => decide (n ≠ 0)
  | .vfloat q => decide (q ≠ 0)
  | .vstrInt _ => true
  | .vstrFloat _ => true
  | .vstrBad s => decide (s ≠ "")
  | .vlist xs => !xs.isEmpty
  | .vdict fs => !fs.isEmpty

/-- Python a or b: a when a is truthy, else b. -/
def pyOr (a b : PyVal) : PyVal := if pyTruthy a then a else b

/-- Truncation of a rational toward zero, as Python int() applied to a float. -/
def ratTrunc (q : Rat) : Int := if q < 0 then -(⌊-q⌋) else ⌊q⌋

/-- Python int(x): defined on ints, floats (truncating), bools and strings
holding an integer literal; raises (None result) otherwise. -/
def pyInt : PyVal → Option Int
  | .vint n => some n
  | .vfloat q => some (ratTrunc q)
  | .vbool b => some (if b then 1 else 0)
  | .vstrInt n => some n
  | _ => none

/-- Python float(x): defined on ints, floats, bools and numeric strings;
raises (None result) otherwise. -/
def pyFloat : PyVal → Option Rat
  | .vint n => some n
  | .vfloat q => some q
  | .vbool b => some (if b then 1 else 0)
  | .vstrInt n => some n
  | .vstrFloat q => some q
  | _ => none

/-- UTC calendar day number of an epoch timestamp: floor division by 86400.
Models datetime.fromtimestamp(ts, tz=utc).date(); on Int the division is
floor division for the positive divisor. -/
def epochDay (ts : Int) : Int := ts / 86400

/-- Models now.replace(minute=0, second=0, microsecond=0) on a UTC datetime,
at the epoch-seconds level: truncation to the top of the hour. -/
def topOfHour (now : Int) : Int := now - now % 3600

/-- Hour of day (0-23) of a UTC epoch timestamp, as datetime.hour. -/
def hourOf (t : Int) : Nat := ((t % 86400).toNat) / 3600

/-- Zero-padded two-digit rendering of an hour, as the format 02d. -/
def hour2 (h : Nat) : String := (if h < 10 then "0" else "") ++ toString h

/-- Value kept for key d by a Python dict built with last-write-wins
assignments over rows: the second component of the last row whose key is d
(the default 0 is never reached for keys that occur in rows). -/
def lastValFor (rows : List (Int × Rat)) (d : Int) : Rat :=
  (((rows.filter (fun q => decide (q.1 = d))).getLast?).map Prod.snd).getD 0

/-- Items of a Python dict built by inserting rows in order (last write per
key wins), listed in sorted key order. Models the idiom of filling a dict
keyed by date and emitting sorted(d.items()) or iterating sorted(d.keys());
the keys are pairwise distinct, so any sorting algorithm produces the list
Python sorted produces. -/
def dedupKeepLast (rows : List (Int × Rat)) : List (Int × Rat) :=
  (List.insertionSort (fun a b : Int => a ≤ b) ((rows.map Prod.fst).dedup)).map
    (fun d => (d, lastValFor rows d))

/-- Comparison of samples by timestamp, the sort key of normalize_series. -/
def sampleLE (a b : Int × Rat) : Prop := a.1 ≤ b.1

instance : DecidableRel sampleLE := fun a b => Int.decLe a.1 b.1

instance : IsTotal (Int × Rat) sampleLE := ⟨fun a b => le_total a.1 b.1⟩

instance : IsTrans (Int × Rat) sampleLE := ⟨fun _ _ _ h1 h2 => le_trans h1 h2⟩

/-! ## TVL workflow: src/fetch_hypurrfi_tvl.py -/

def keyDate : String := "date"
def keyTimestamp : String := "timestamp"
def keyTime : String := "time"
def keyChainTvls : String := "chainTvls"
def keyTvl : String := "tvl"
def keyHL1 : String := "Hyperliquid L1"
def keyHL : String := "Hyperliquid"
def keyData : String := "data"
def keyValue : String := "value"
def keyRevenue : String := "revenue"
def keyProtocolRevenue : String := "protocolRevenue"
def keyDailyRevenue : String := "dailyRevenue"
def keyTotalDataChart : String := "totalDataChart"
def keyDailyDataChart : String := "dailyDataChart"
def keyTotalDataChartBreakdown : String := "totalDataChartBreakdown"

/-- The ordered TVL value aliases probed by _extract_ts_val. -/
def tvlValueKeys : List String :=
  ["totalLiquidityUSD", "totalLiquidityUsd", "totalLiquidity", keyTvl,
   keyValue, "liquidityUSD"]

/-- The inner loop of _extract_ts_val over the value-key aliases: on the
first key present in the dict, return int(ts) paired with float of the stored
value, or drop the element when either conversion raises; only when the key
is absent is the next alias tried. -/
def probeTvlValue (fs : List (String × PyVal)) (ts : PyVal) :
    List String → Option (Int × Rat)
  | [] => none
  | k :: ks =>
    if dmem fs k then
      match pyInt ts, pyFloat (dget fs k) with
      | some t, some v => some (t, v)
      | _, _ => none
    else probeTvlValue fs ts ks

/-- Models _extract_ts_val in fetch_hypurrfi_tvl.py: pairs take positions 0
and 1; dicts compute the timestamp by the or-chain over date, timestamp, time
and then probe the value aliases. -/
def extract_ts_val (item : PyVal) : Option (Int × Rat) :=
  match item with
  | .vlist (a :: b :: _) =>
    (match pyInt a, pyFloat b with
     | some t, some v => some (t, v)
     | _, _ => none)
  | .vdict fs =>
    probeTvlValue fs
      (pyOr (dget fs keyDate) (pyOr (dget fs keyTimestamp) (dget fs keyTime)))
      tvlValueKeys
  | _ => none

/-- Models normalize_series: collect the coercible elements in input order
(the loop appending to out), then sort by timestamp (out.sort keyed on the
first component). Python list.sort is a stable sort, as is insertionSort, and
a stable sort of a list is unique, so the model computes exactly the sorted
list the script computes. The second component is the count of skipped
malformed elements. -/
def normalize_series (series : List PyVal) : List (Int × Rat) × Nat :=
  (List.insertionSort sampleLE (series.filterMap extract_ts_val),
   series.countP (fun it => (extract_ts_val it).isNone))

/-- The inner loop of pick_series over CHAIN_KEYS: the first key whose block
is a dict with a list-valued tvl field yields that list. -/
def pickChainTvl (cfs : List (String × PyVal)) : List String → Option (List PyVal)
  | [] => none
  | k :: ks =>
    match dget cfs k with
    | .vdict bfs =>
      (match dget bfs keyTvl with
       | .vlist l => some l
       | _ => pickChainTvl cfs ks)
    | _ => pickChainTvl cfs ks

/-- Models pick_series in fetch_hypurrfi_tvl.py. The expression
j.get(chainTvls) or emptydict is only usable when it is a dict: a truthy
non-dict value makes the subsequent .get call raise AttributeError, which no
handler catches, so that path is a crash (error result). -/
def tvl_pick_series (j : PyVal) : Except String (List PyVal) :=
  match j with
  | .vdict fs =>
    (match pyOr (dget fs keyChainTvls) (.vdict []) with
     | .vdict cfs =>
       (match pickChainTvl cfs [keyHL1, keyHL] with
        | some l => .ok l
        | none =>
          (match dget fs keyTvl with
           | .vlist l => .ok l
           | _ => .ok []))
     | _ => .error "AttributeError: chainTvls value has no get attribute")
  | _ => .ok []

/-- Models write_daily_csv of the TVL script: build a dict keyed by the UTC
date of each sample (last write wins) and emit the rows in sorted date
order; an empty series yields the header-only file (empty row list). -/
def tvl_write_daily (series : List (Int × Rat)) : List (Int × Rat) :=
  dedupKeepLast (series.map (fun p => (epochDay p.1, p.2)))

/-- A row of the hourly CSV: the timestamp column parsed back to epoch
seconds, the date column as a day number, the hour column as written, and
the value column. -/
structure HourlyRow where
  slot_ts : Int
  date_col : Int
  hour_col : String
  value : Rat
deriving DecidableEq

/-- Models read_existing_hours / read_existing_hour_slots: the set of epoch
seconds recovered by parsing the timestamp column of each row (the scripts
only ever write rows whose timestamp round-trips). -/
def read_existing_hours (log : List HourlyRow) : List Int := log.map (·.slot_ts)

/-- The row appended by append_hourly in the TVL script: hour-slot timestamp,
the slot date, the slot hour zero-padded to two digits, and the value. -/
def tvl_hourly_row (slot : Int) (v : Rat) : HourlyRow :=
  ⟨slot, epochDay slot, hour2 (hourOf slot), v⟩

/-- Run status of a script invocation: normal exit 0, SystemExit with a
message (exit code 1), or an unhandled exception. -/
inductive RunStatus where
  | success
  | fatalExit (msg : String)
  | crashed (msg : String)
deriving DecidableEq

/-- The two files maintained by the TVL script. -/
structure TvlFiles where
  daily : List (Int × Rat)
  hourly : List HourlyRow
deriving DecidableEq

def msgNoTvlSeries : String := "No TVL series available"

/-- Models main of fetch_hypurrfi_tvl.py from the point where the upstream
document j has been fetched: compute the hour slot, pick and normalize the
series, overwrite the daily file, then append the hourly row unless the slot
is already recorded. latest_series_value raises SystemExit on an empty
series, after the header-only daily file was already written. -/
def tvl_main (now : Int) (j : PyVal) (files : TvlFiles) : RunStatus × TvlFiles :=
  let slot := topOfHour now
  match tvl_pick_series j with
  | .error m => (.crashed m, files)
  | .ok raw =>
    let series := (normalize_series raw).1
    let files1 : TvlFiles := { files with daily := tvl_write_daily series }
    match series.getLast? with
    | none => (.fatalExit msgNoTvlSeries, files1)
    | some p =>
      if slot ∈ read_existing_hours files1.hourly then (.success, files1)
      else (.success,
        { files1 with hourly := files1.hourly ++ [tvl_hourly_row slot p.2] })

/-! ## Revenue workflow: src/fetch_hypurrfi_revenue.py -/

/-- Models one element coercion of normalize_to_rows: pairs take positions 0
and 1, dicts use the or-chains over the timestamp aliases and the value
aliases; an element whose timestamp or value ends up None is skipped, as is
one whose int or float conversion raises. The timestamp is mapped to its UTC
day (ts_to_date_str). -/
def rev_extract (item : PyVal) : Option (Int × Rat) :=
  match
    (match item with
     | .vlist (a :: b :: _) => (a, b)
     | .vdict fs =>
       (pyOr (dget fs keyDate) (pyOr (dget fs keyTimestamp) (dget fs keyTime)),
        pyOr (dget fs keyValue) (pyOr (dget fs keyRevenue)
          (pyOr (dget fs keyProtocolRevenue) (dget fs keyDailyRevenue))))
     | _ => (.vnull, .vnull)) with
  | (.vnull, _) => none
  | (_, .vnull) => none
  | (t, v) =>
    match pyInt t, pyFloat v with
    | some ts, some val => some (epochDay ts, val)
    | _, _ => none

/-- Models normalize_to_rows: the coercion loop in input order with a skip
count, then deduplication by date through a dict (last write wins) emitted in
sorted date order. -/
def normalize_to_rows (arr : List PyVal) : List (Int × Rat) × Nat :=
  (dedupKeepLast (arr.filterMap rev_extract),
   arr.countP (fun it => (rev_extract it).isNone))

/-- Sum of float(v or 0.0) over the values of a per-product map, where a
conversion failure on one value is swallowed by the bare except and
contributes nothing. -/
def hl1_sum_dict (vals : List PyVal) : Rat :=
  vals.foldl (fun acc v =>
    match pyFloat (pyOr v (.vfloat 0)) with
    | some x => acc + x
    | none => acc) 0

/-- One iteration of the _prefer_hl1_from_breakdown loop. Yields none for a
skipped item, a (day, total) pair for a kept one, and an error when the
uncaught int(ts) or float(hl1 or 0.0) conversion raises. -/
def hl1_item (item : PyVal) : Except String (Option (Int × Rat)) :=
  match item with
  | .vlist (ts :: payload :: _) =>
    (match payload with
     | .vdict pfs =>
       (match dget pfs keyHL1 with
        | .vnull => .ok none
        | .vdict hfs =>
          (match pyInt ts with
           | some t => .ok (some (epochDay t, hl1_sum_dict (hfs.map Prod.snd)))
           | none => .error "ValueError: int(ts) in breakdown")
        | hl1 =>
          (match pyFloat (pyOr hl1 (.vfloat 0)) with
           | some total =>
             (match pyInt ts with
              | some t => .ok (some (epochDay t, total))
              | none => .error "ValueError: int(ts) in breakdown")
           | none => .error "ValueError: float(hl1) in breakdown"))
     | _ => .ok none)
  | _ => .ok none

/-- The _prefer_hl1_from_breakdown loop over the breakdown entries,
accumulating kept rows in order and propagating a crash. -/
def hl1_loop : List PyVal → List (Int × Rat) → Except String (List (Int × Rat))
  | [], acc => .ok acc
  | it :: rest, acc =>
    match hl1_item it with
    | .error m => .error m
    | .ok none => hl1_loop rest acc
    | .ok (some p) => hl1_loop rest (acc ++ [p])

/-- Models _prefer_hl1_from_breakdown: locate totalDataChartBreakdown at top
level or under data, and run the extraction loop. Called on a non-dict
document the .get access raises AttributeError, uncaught: a crash. -/
def prefer_hl1_from_breakdown (j : PyVal) : Except String (List (Int × Rat)) :=
  match j with
  | .vdict fs =>
    (match
       (match dget fs keyTotalDataChartBreakdown with
        | .vlist l => some l
        | _ =>
          (match dget fs keyData with
           | .vdict dfs =>
             (match dget dfs keyTotalDataChartBreakdown with
              | .vlist l => some l
              | _ => none)
           | _ => none)) with
     | some items => hl1_loop items []
     | none => .ok [])
  | _ => .error "AttributeError: document has no get attribute"

/-- One probe of pick_series in the revenue script: a key whose value is a
non-empty list. -/
def rev_pick_from (fs : List (String × PyVal)) (k : String) : Option (List PyVal) :=
  match dget fs k with
  | .vlist (x :: xs) => some (x :: xs)
  | _ => none

/-- Models pick_series in fetch_hypurrfi_revenue.py: totalDataChart then
dailyDataChart at top level, then both nested under data, else empty. -/
def rev_pick_series (j : PyVal) : List PyVal :=
  match j with
  | .vdict fs =>
    (match rev_pick_from fs keyTotalDataChart with
     | some l => l
     | none =>
       (match rev_pick_from fs keyDailyDataChart with
        | some l => l
        | none =>
          (match dget fs keyData with
           | .vdict dfs =>
             (match rev_pick_from dfs keyTotalDataChart with
              | some l => l
              | none =>
                (match rev_pick_from dfs keyDailyDataChart with
                 | some l => l
                 | none => []))
           | _ => [])))
  | _ => []

/-- The daily rows computed by revenue main: the HL1 breakdown series when it
is non-empty (deduplicated by date, last wins, sorted — the dict
comprehension followed by sorted), else the legacy pick_series and
normalize_to_rows fallback; a crash in the breakdown extraction propagates. -/
def rev_rows (j : PyVal) : Except String (List (Int × Rat)) :=
  match prefer_hl1_from_breakdown j with
  | .error m => .error m
  | .ok hl1_rows =>
    if hl1_rows.isEmpty then .ok (normalize_to_rows (rev_pick_series j)).1
    else .ok (dedupKeepLast hl1_rows)

/-- The row appended by append_hourly_sample: hour-slot timestamp, the date
passed as latest_date (the most recent date of the daily rows, not the slot
date), the slot hour zero-padded, and the latest value. -/
def rev_hourly_row (slot : Int) (latestDate : Int) (latestVal : Rat) : HourlyRow :=
  ⟨slot, latestDate, hour2 (hourOf slot), latestVal⟩

/-- Models upload_csv_to_dune: with no API key it is a skip (no POST); with a
key the POST is attempted, and on failure the error is logged and re-raised.
Returns the attempts list extended when a POST was attempted, and whether an
exception was raised to the caller. -/
def upload_csv_to_dune (hasKey fails : Bool) (table : String)
    (attempts : List String) : List String × Bool :=
  if hasKey then (attempts ++ [table], fails) else (attempts, false)

def tableDaily : String := "daily"
def tableHourly : String := "hourly"

/-- Models the upload block at the end of revenue main: both calls inside one
try, the hourly one guarded by the hourly file existing; any exception is
caught, so the block never aborts the run. The result is the list of tables
for which a POST was attempted. -/
def dune_upload_phase (hasKey hourlyExists dailyFails hourlyFails : Bool) :
    List String :=
  match upload_csv_to_dune hasKey dailyFails tableDaily [] with
  | (a1, true) => a1
  | (a1, false) =>
    if hourlyExists then (upload_csv_to_dune hasKey hourlyFails tableHourly a1).1
    else a1

/-- The files maintained by the revenue script. -/
structure RevFiles where
  daily : List (Int × Rat)
  hourly : List HourlyRow
deriving DecidableEq

/-- Outcome of one revenue run: status, resulting files, and the upload POSTs
attempted. -/
structure RevOutcome where
  status : RunStatus
  files : RevFiles
  uploadsAttempted : List String
deriving DecidableEq

def msgNoRevenueRows : String := "No revenue rows"

/-- Models main of fetch_hypurrfi_revenue.py from the point where the
document j has been fetched. The daily writer exits fatally on empty rows
after writing the header-only file, before the hourly block and the uploads;
otherwise the daily file is overwritten with the rows, the hourly row is
appended when the hour slot is new (carrying the last daily row), and the
upload phase runs. -/
def revenue_main (now : Int) (j : PyVal) (files : RevFiles)
    (hasKey dailyFails hourlyFails : Bool) : RevOutcome :=
  let slot := topOfHour now
  match rev_rows j with
  | .error m => { status := .crashed m, files := files, uploadsAttempted := [] }
  | .ok rows =>
    match rows.getLast? with
    | none =>
      { status := .fatalExit msgNoRevenueRows,
        files := { files with daily := [] }, uploadsAttempted := [] }
    | some latest =>
      let files1 : RevFiles := { files with daily := rows }
      let files2 : RevFiles :=
        if slot ∈ read_existing_hours files1.hourly then files1
        else { files1 with
          hourly := files1.hourly ++ [rev_hourly_row slot latest.1 latest.2] }
      { status := .success, files := files2,
        uploadsAttempted :=
          dune_upload_phase hasKey (!files2.hourly.isEmpty) dailyFails hourlyFails }

/-- Modelled from the spec: the merge of previously persisted DailyRecords
with a newly reduced series, in which new values override old ones for
overlapping dates and dates absent from the new fetch retain their previously
persisted value. This definition follows the wording of the spec and is the
comparison point for the refinement claim about the TVL daily snapshot; the
source has no such merge. -/
def mergeDailySpec (old new : List (Int × Rat)) : List (Int × Rat) :=
  dedupKeepLast (old ++ new)

/-! ## Helper lemmas -/

/-- Every list splits into the coerced elements and the counted skips. -/
theorem length_filterMap_add_countP_none {α β : Type} (f : α → Option β)
    (l : List α) :
    (l.filterMap f).length + l.countP (fun a => (f a).isNone) = l.length := by
  induction l with
  | nil => simp
  | cons a t ih =>
    cases h : f a <;>
      simp [List.filterMap_cons, h, List.countP_cons] <;> omega

/-- The sorted key list of dedupKeepLast. -/
def keysOf (rows : List (Int × Rat)) : List Int :=
  List.insertionSort (fun a b : Int => a ≤ b) ((rows.map Prod.fst).dedup)

theorem dedupKeepLast_eq_map_keysOf (rows : List (Int × Rat)) :
    dedupKeepLast rows = (keysOf rows).map (fun d => (d, lastValFor rows d)) := rfl

theorem mem_keysOf {rows : List (Int × Rat)} {d : Int} :
    d ∈ keysOf rows ↔ d ∈ rows.map Prod.fst :=
  ((List.perm_insertionSort _ _).mem_iff).trans List.mem_dedup

theorem nodup_keysOf (rows : List (Int × Rat)) : (keysOf rows).Nodup :=
  (List.nodup_dedup _).perm (List.perm_insertionSort _ _).symm

theorem sorted_keysOf (rows : List (Int × Rat)) :
    List.Pairwise (fun a b : Int => a ≤ b) (keysOf rows) :=
  List.sorted_insertionSort (fun a b : Int => a ≤ b) ((rows.map Prod.fst).dedup)

theorem pairwise_lt_keysOf (rows : List (Int × Rat)) :
    List.Pairwise (fun a b : Int => a < b) (keysOf rows) := by
  have h := (sorted_keysOf rows).and (nodup_keysOf rows)
  exact h.imp (fun hab => lt_of_le_of_ne hab.1 hab.2)

theorem pairwise_lt_dedupKeepLast (rows : List (Int × Rat)) :
    List.Pairwise (fun p q : Int × Rat => p.1 < q.1) (dedupKeepLast rows) := by
  rw [dedupKeepLast_eq_map_keysOf, List.pairwise_map]
  exact pairwise_lt_keysOf rows

theorem mem_dedupKeepLast {rows : List (Int × Rat)} {d : Int} {v : Rat} :
    (d, v) ∈ dedupKeepLast rows ↔
      d ∈ rows.map Prod.fst ∧ lastValFor rows d = v := by
  rw [dedupKeepLast_eq_map_keysOf, List.mem_map]
  constructor
  · rintro ⟨k, hk, hkv⟩
    obtain ⟨rfl, rfl⟩ : k = d ∧ lastValFor rows k = v := by
      constructor
      · exact congrArg Prod.fst hkv
      · exact congrArg Prod.snd hkv
    exact ⟨mem_keysOf.mp hk, rfl⟩
  · rintro ⟨hd, hv⟩
    exact ⟨d, mem_keysOf.mpr hd, by rw [hv]⟩

/-- A key that occurs in rows has a last occurrence, and its first component
is the key itself. -/
theorem filter_fst_getLast? {rows : List (Int × Rat)} {d : Int}
    (h : d ∈ rows.map Prod.fst) :
    ∃ v, (rows.filter (fun q => decide (q.1 = d))).getLast? = some (d, v) := by
  obtain ⟨p, hp, hpd⟩ := List.mem_map.mp h
  have hmem : p ∈ rows.filter (fun q => decide (q.1 = d)) :=
    List.mem_filter.mpr ⟨hp, by simp [hpd]⟩
  have hne : rows.filter (fun q => decide (q.1 = d)) ≠ [] :=
    List.ne_nil_of_mem hmem
  have hq : (rows.filter (fun q => decide (q.1 = d))).getLast? =
      some ((rows.filter (fun q => decide (q.1 = d))).getLast hne) :=
    List.getLast?_eq_getLast _ hne
  have hq1 : ((rows.filter (fun q => decide (q.1 = d))).getLast hne).1 = d := by
    have := (List.mem_filter.mp (List.getLast_mem hne)).2
    simpa using this
  refine ⟨((rows.filter (fun q => decide (q.1 = d))).getLast hne).2, ?_⟩
  rw [hq]
  exact congrArg some (Prod.ext_iff.mpr ⟨hq1, rfl⟩)

/-- value of lastValFor at a key that occurs. -/
theorem lastValFor_eq_of_getLast? {rows : List (Int × Rat)} {d : Int} {v : Rat}
    (h : (rows.filter (fun q => decide (q.1 = d))).getLast? = some (d, v)) :
    lastValFor rows d = v := by
  unfold lastValFor
  rw [h]
  rfl

/-- When the overall last element satisfies the predicate, it is also the
last element of the filtered list. -/
theorem getLast?_filter_of_getLast? {l : List (Int × Rat)}
    {p : (Int × Rat) → Bool} {a : Int × Rat}
    (h : l.getLast? = some a) (hp : p a = true) :
    (l.filter p).getLast? = some a := by
  obtain ⟨l2, rfl⟩ := List.getLast?_eq_some_iff.mp h
  rw [List.filter_append]
  simp [hp]

/-- In a list sorted on a key, every member has key at most the key of the
last element. -/
theorem key_le_getLast {α : Type} (f : α → Int) :
    ∀ {l : List α}, List.Pairwise (fun a b => f a ≤ f b) l →
      ∀ {x : α} (hx : x ∈ l) (h : l ≠ []), f x ≤ f (l.getLast h)
  | [], _, _, hx, _ => absurd hx (List.not_mem_nil _)
  | [a], _, x, hx, h => by
    simp only [List.mem_singleton] at hx
    subst hx
    rfl
  | a :: b :: t, hs, x, hx, h => by
    rw [List.getLast_cons (l := b :: t) (List.cons_ne_nil _ _)]
    rcases List.mem_cons.mp hx with rfl | hx2
    · exact (List.pairwise_cons.mp hs).1 _
        (List.getLast_mem (List.cons_ne_nil _ _))
    · exact key_le_getLast f (List.pairwise_cons.mp hs).2 hx2
        (List.cons_ne_nil _ _)

/-- Sortedness of the sample sort used by normalize_series. -/
theorem sorted_sampleSort (l : List (Int × Rat)) :
    List.Pairwise (fun a b : Int × Rat => a.1 ≤ b.1)
      (List.insertionSort sampleLE l) :=
  (List.sorted_insertionSort sampleLE l).imp (fun hab => hab)

/-- Unfolding of tvl_main once the picked series is known. -/
theorem tvl_main_ok (now : Int) (j : PyVal) (raw : List PyVal)
    (files : TvlFiles) (h : tvl_pick_series j = .ok raw) :
    tvl_main now j files =
      match ((normalize_series raw).1).getLast? with
      | none => (.fatalExit msgNoTvlSeries,
          ⟨tvl_write_daily ((normalize_series raw).1), files.hourly⟩)
      | some p =>
        if topOfHour now ∈ read_existing_hours files.hourly then
          (.success, ⟨tvl_write_daily ((normalize_series raw).1), files.hourly⟩)
        else
          (.success, ⟨tvl_write_daily ((normalize_series raw).1),
            files.hourly ++ [tvl_hourly_row (topOfHour now) p.2]⟩) := by
  unfold tvl_main
  rw [h]

/-- Unfolding of revenue_main once the daily rows are known. -/
theorem revenue_main_ok (now : Int) (j : PyVal) (rows : List (Int × Rat))
    (files : RevFiles) (hk df hf : Bool) (h : rev_rows j = .ok rows) :
    revenue_main now j files hk df hf =
      match rows.getLast? with
      | none => ⟨.fatalExit msgNoRevenueRows, ⟨[], files.hourly⟩, []⟩
      | some latest =>
        let files2 : RevFiles :=
          if topOfHour now ∈ read_existing_hours files.hourly then
            ⟨rows, files.hourly⟩
          else
            ⟨rows, files.hourly
              ++ [rev_hourly_row (topOfHour now) latest.1 latest.2]⟩
        ⟨.success, files2,
          dune_upload_phase hk (!files2.hourly.isEmpty) df hf⟩ := by
  unfold revenue_main
  rw [h]

/-! ## Claim C1 -/

/-- C1 counterexample: with a previously persisted daily series holding day 0
and a fetch covering only day 1, the written TVL daily file contains only day
1, while the merge described by the claim would retain day 0. The claim as
stated is therefore false on the code. -/
theorem C1_counterexample :
    ((tvl_main 0 (.vdict [(keyTvl, .vlist [.vlist [.vint 86400, .vint 2]])])
        ⟨[(0, 1)], []⟩).2).daily = [(1, 2)]
    ∧ mergeDailySpec [(0, 1)] [(1, 2)] = [(0, 1), (1, 2)]
    ∧ [((1 : Int), (2 : Rat))] ≠ [(0, 1), (1, 2)] := by
  refine ⟨by decide, by decide, by decide⟩

/-- C1 amended: the TVL daily snapshot written at the end of a run equals
exactly the reduction of the newly fetched series; no merge with the
previously persisted daily file occurs, so the written file is independent of
the prior daily contents and dates absent from the new fetch are dropped. -/
theorem C1_tvl_daily_is_pure_overwrite
    (now : Int) (j : PyVal) (raw : List PyVal) (files : TvlFiles)
    (h : tvl_pick_series j = .ok raw) :
    ((tvl_main now j files).2).daily
      = tvl_write_daily ((normalize_series raw).1) := by
  rw [tvl_main_ok now j raw files h]
  cases hL : ((normalize_series raw).1).getLast? with
  | none => rfl
  | some p =>
    dsimp only
    split <;> rfl

/-- C1 witness: the amended theorem applied at a concrete input. -/
theorem C1_witness :
    ((tvl_main 0 (.vdict [(keyTvl, .vlist [.vlist [.vint 86400, .vint 2]])])
        ⟨[(0, 77)], []⟩).2).daily
      = tvl_write_daily ((normalize_series
          [.vlist [.vint 86400, .vint 2]]).1) :=
  C1_tvl_daily_is_pure_overwrite 0
    (.vdict [(keyTvl, .vlist [.vlist [.vint 86400, .vint 2]])])
    [.vlist [.vint 86400, .vint 2]] ⟨[(0, 77)], []⟩ rfl

/-! ## Claim C2 -/

/-- C2 counterexample: with an API key present, an existing hourly file and a
failing daily upload, only the daily POST is attempted: the hourly upload is
not attempted afterwards, contrary to the claim, although the run is not
aborted. When the daily upload succeeds both POSTs are attempted. -/
theorem C2_counterexample :
    dune_upload_phase true true true false = [tableDaily]
    ∧ tableHourly ∉ dune_upload_phase true true true false
    ∧ dune_upload_phase true true false false = [tableDaily, tableHourly] := by
  refine ⟨rfl, by decide, rfl⟩

/-- C2 amended: a failing daily upload is caught and neither changes the run
status nor the written files (the run is not aborted and the local files
remain valid), but the hourly upload is then not attempted, because both
upload calls live in a single try block: with a failing daily upload exactly
the daily POST is attempted, whatever the hourly situation. -/
theorem C2_upload_failure_caught_but_hourly_skipped :
    (∀ hourlyExists hourlyFails : Bool,
      dune_upload_phase true hourlyExists true hourlyFails = [tableDaily])
    ∧ (∀ (now : Int) (j : PyVal) (files : RevFiles) (df hf : Bool),
      (revenue_main now j files true df hf).status
        = (revenue_main now j files true false false).status
      ∧ (revenue_main now j files true df hf).files
        = (revenue_main now j files true false false).files) := by
  constructor
  · intro he hf
    cases he <;> cases hf <;> rfl
  · intro now j files df hf
    cases hr : rev_rows j with
    | error m =>
      unfold revenue_main
      rw [hr]
      exact ⟨rfl, rfl⟩
    | ok rows =>
      rw [revenue_main_ok now j rows files true df hf hr,
        revenue_main_ok now j rows files true false false hr]
      cases hL : rows.getLast? with
      | none => exact ⟨rfl, rfl⟩
      | some latest => exact ⟨rfl, rfl⟩

/-! ## Claim C5 -/

/-- C5 counterexample: on an empty reconciled series the TVL workflow also
terminates with a fatal SystemExit (non-zero exit code), not with a degraded
but successful status, so a fatal exit is not confined to the revenue
variant. -/
theorem C5_counterexample :
    (tvl_main 0 (.vdict []) ⟨[], []⟩).1 = .fatalExit msgNoTvlSeries
    ∧ RunStatus.fatalExit msgNoTvlSeries ≠ .success := by
  exact ⟨rfl, by decide⟩

/-- C5 amended: when the reconciled daily series is empty, both workflows
write a header-only daily file and terminate via SystemExit with a
descriptive message, hence a non-zero exit code, in the TVL workflow exactly
as in the revenue one; neither workflow crashes unhandled on this condition,
and with a non-empty series the run status is success (exit code zero), in
the revenue workflow even when uploads fail. -/
theorem C5_empty_series_fatal_in_both_workflows
    (now : Int) (j jr : PyVal) (ft : TvlFiles) (fr : RevFiles)
    (raw : List PyVal) (rows : List (Int × Rat))
    (hT : tvl_pick_series j = .ok raw) (hR : rev_rows jr = .ok rows)
    (hk df hf : Bool) :
    ((normalize_series raw).1 = [] →
      (tvl_main now j ft).1 = .fatalExit msgNoTvlSeries
      ∧ ((tvl_main now j ft).2).daily = [])
    ∧ ((normalize_series raw).1 ≠ [] → (tvl_main now j ft).1 = .success)
    ∧ (rows = [] →
      (revenue_main now jr fr hk df hf).status = .fatalExit msgNoRevenueRows
      ∧ ((revenue_main now jr fr hk df hf).files).daily = [])
    ∧ (rows ≠ [] → (revenue_main now jr fr hk df hf).status = .success) := by
  refine ⟨?_, ?_, ?_, ?_⟩
  · intro hemp
    rw [tvl_main_ok now j raw ft hT, hemp]
    exact ⟨rfl, rfl⟩
  · intro hne
    obtain ⟨p, hp⟩ :=
      Option.isSome_iff_exists.mp (List.getLast?_isSome.mpr hne)
    rw [tvl_main_ok now j raw ft hT, hp]
    dsimp only
    split <;> rfl
  · rintro rfl
    rw [revenue_main_ok now jr [] fr hk df hf hR]
    exact ⟨rfl, rfl⟩
  · intro hne
    obtain ⟨p, hp⟩ :=
      Option.isSome_iff_exists.mp (List.getLast?_isSome.mpr hne)
    rw [revenue_main_ok now jr rows fr hk df hf hR, hp]

/-- C5 witness: the amended theorem applied at concrete inputs where both
workflows see an empty reconciled series. -/
theorem C5_witness :
    (tvl_main 0 (.vdict []) ⟨[], []⟩).1 = .fatalExit msgNoTvlSeries
    ∧ (revenue_main 0 (.vdict []) ⟨[], []⟩ false false false).status
        = .fatalExit msgNoRevenueRows :=
  ⟨((C5_empty_series_fatal_in_both_workflows 0 (.vdict []) (.vdict [])
      ⟨[], []⟩ ⟨[], []⟩ [] [] rfl rfl false false false).1 rfl).1,
   (((C5_empty_series_fatal_in_both_workflows 0 (.vdict []) (.vdict [])
      ⟨[], []⟩ ⟨[], []⟩ [] [] rfl rfl false false false).2.2.1 rfl).1)⟩

/-! ## Claim C8 -/

/-- C8: the reduced daily series written by either workflow has strictly
ascending, pairwise distinct dates: at most one record per UTC calendar date
in any persisted daily file, including the deduplicated breakdown rows of the
revenue HL1 path. -/
theorem C8_daily_dates_strictly_ascending :
    (∀ arr : List PyVal,
      List.Pairwise (fun p q : Int × Rat => p.1 < q.1)
        ((normalize_to_rows arr).1))
    ∧ (∀ arr : List PyVal,
      List.Pairwise (fun p q : Int × Rat => p.1 < q.1)
        (tvl_write_daily ((normalize_series arr).1)))
    ∧ (∀ rows : List (Int × Rat),
      List.Pairwise (fun p q : Int × Rat => p.1 < q.1) (dedupKeepLast rows)) :=
  ⟨fun arr => pairwise_lt_dedupKeepLast _,
   fun arr => pairwise_lt_dedupKeepLast _,
   fun rows => pairwise_lt_dedupKeepLast rows⟩

/-! ## Claim C9 -/

/-- C9: every element of the selected series is either coerced to a sample or
dropped with the skip count incremented, so the sample count plus the skip
count equals the input length in both workflows, and coercion is a total
function (the model never raises by construction); on the input of one
well-formed pair and one object missing both timestamp and value keys, both
normalizers yield exactly one sample and a skip count of one. -/
theorem C9_malformed_elements_dropped_and_counted :
    (∀ arr : List PyVal,
      ((normalize_series arr).1).length + (normalize_series arr).2
        = arr.length)
    ∧ (∀ arr : List PyVal,
      (arr.filterMap rev_extract).length + (normalize_to_rows arr).2
        = arr.length)
    ∧ normalize_series
        [.vlist [.vint 1700000000, .vint 5], .vdict [("foo", .vint 1)]]
        = ([(1700000000, 5)], 1)
    ∧ normalize_to_rows
        [.vlist [.vint 1700000000, .vint 5], .vdict [("foo", .vint 1)]]
        = ([(19675, 5)], 1) := by
  refine ⟨?_, ?_, by decide, by decide⟩
  · intro arr
    have hlen : ((normalize_series arr).1).length
        = (arr.filterMap extract_ts_val).length :=
      (List.perm_insertionSort sampleLE _).length_eq
    rw [hlen]
    exact length_filterMap_add_countP_none extract_ts_val arr
  · intro arr
    exact length_filterMap_add_countP_none rev_extract arr

/-! ## Claim C10 -/

/-- C10: when the normalized series is empty, both workflows stop via
SystemExit right after writing the header-only daily file and before reading
or appending the hourly log, so the run leaves the hourly log exactly as it
was (and in the revenue workflow attempts no upload). -/
theorem C10_empty_series_leaves_hourly_log_unchanged
    (now : Int) (j jr : PyVal) (ft : TvlFiles) (fr : RevFiles)
    (raw : List PyVal)
    (hT : tvl_pick_series j = .ok raw)
    (hT2 : (normalize_series raw).1 = [])
    (hR : rev_rows jr = .ok []) (hk df hf : Bool) :
    tvl_main now j ft = (.fatalExit msgNoTvlSeries, ⟨[], ft.hourly⟩)
    ∧ revenue_main now jr fr hk df hf
        = ⟨.fatalExit msgNoRevenueRows, ⟨[], fr.hourly⟩, []⟩ := by
  constructor
  · rw [tvl_main_ok now j raw ft hT, hT2]
    rfl
  · rw [revenue_main_ok now jr [] fr hk df hf hR]
    rfl

/-- C10 witness: the theorem applied at a concrete empty-series input. -/
theorem C10_witness :
    tvl_main 3600 (.vdict []) ⟨[(0, 3)], [⟨0, 0, "00", 3⟩]⟩
      = (.fatalExit msgNoTvlSeries, ⟨[], [⟨0, 0, "00", 3⟩]⟩)
    ∧ revenue_main 3600 (.vdict []) ⟨[(0, 3)], [⟨0, 0, "00", 3⟩]⟩ true false false
      = ⟨.fatalExit msgNoRevenueRows, ⟨[], [⟨0, 0, "00", 3⟩]⟩, []⟩ :=
  C10_empty_series_leaves_hourly_log_unchanged 3600 (.vdict []) (.vdict [])
    ⟨[(0, 3)], [⟨0, 0, "00", 3⟩]⟩ ⟨[(0, 3)], [⟨0, 0, "00", 3⟩]⟩ []
    rfl rfl rfl true false false

/-! ## Claim C4 -/

/-- C4 counterexample: a revenue object storing zero under the first value
alias and 5 under the second is coerced with value 5, not 0: the or-chain
probing skips a present alias whose stored value is zero, contrary to the
claim that the first present alias wins whatever the value, including zero. -/
theorem C4_counterexample :
    rev_extract (.vdict [(keyTimestamp, .vint 86400), (keyValue, .vint 0),
        (keyRevenue, .vint 5)])
      = some (1, 5)
    ∧ some ((1 : Int), (5 : Rat)) ≠ some ((1 : Int), (0 : Rat)) := by
  exact ⟨by decide, by decide⟩

/-- C4 amended: object probing walks the alias list by Python or-chains for
the timestamp aliases in both workflows and for the revenue value aliases, so
a present alias with a falsy value (for example zero) is skipped in favour of
a later truthy alias; only the TVL value probe takes the first alias key
present even when it stores zero, and when that first present key holds a
non-numeric value the element is dropped without probing later aliases. -/
theorem C4_alias_probing_follows_truthiness
    (t v : Int) (ht : t ≠ 0) (hv : v ≠ 0) :
    rev_extract (.vdict [(keyTimestamp, .vint t), (keyValue, .vint 0),
        (keyRevenue, .vint v)])
      = some (epochDay t, (v : Rat))
    ∧ rev_extract (.vdict [(keyDate, .vint 0), (keyTimestamp, .vint t),
        (keyValue, .vint v)])
      = some (epochDay t, (v : Rat))
    ∧ extract_ts_val (.vdict [(keyDate, .vint t),
        ("totalLiquidityUSD", .vint 0), (keyTvl, .vint v)])
      = some (t, (0 : Rat))
    ∧ extract_ts_val (.vdict [(keyDate, .vint t),
        ("totalLiquidityUSD", .vstrBad "x"), (keyTvl, .vint v)])
      = none := by
  refine ⟨?_, ?_, ?_, ?_⟩
  · simp [rev_extract, dget, pyOr, pyTruthy, pyInt, pyFloat, keyDate,
      keyTimestamp, keyTime, keyValue, keyRevenue, keyProtocolRevenue,
      keyDailyRevenue, List.lookup, ht, hv]
  · simp [rev_extract, dget, pyOr, pyTruthy, pyInt, pyFloat, keyDate,
      keyTimestamp, keyTime, keyValue, keyRevenue, keyProtocolRevenue,
      keyDailyRevenue, List.lookup, ht, hv]
  · simp [extract_ts_val, probeTvlValue, tvlValueKeys, dget, dmem, pyOr,
      pyTruthy, pyInt, pyFloat, keyDate, keyTimestamp, keyTime, keyTvl,
      keyValue, List.lookup, ht]
  · simp [extract_ts_val, probeTvlValue, tvlValueKeys, dget, dmem, pyOr,
      pyTruthy, pyInt, pyFloat, keyDate, keyTimestamp, keyTime, keyTvl,
      keyValue, List.lookup, ht]

/-- C4 witness: the amended theorem applied at a concrete input. -/
theorem C4_witness :
    rev_extract (.vdict [(keyTimestamp, .vint 86400), (keyValue, .vint 0),
        (keyRevenue, .vint 5)])
      = some (epochDay 86400, ((5 : Int) : Rat)) :=
  (C4_alias_probing_follows_truthiness 86400 5 (by decide) (by decide)).1

/-! ## Claim C6 -/

/-- Hourly file resulting from one TVL run with a non-empty series. -/
theorem tvl_main_hourly_eq (now : Int) (j : PyVal) (raw : List PyVal)
    (ft : TvlFiles) (p : Int × Rat) (hT : tvl_pick_series j = .ok raw)
    (hp : ((normalize_series raw).1).getLast? = some p) :
    ((tvl_main now j ft).2).hourly
      = if topOfHour now ∈ read_existing_hours ft.hourly then ft.hourly
        else ft.hourly ++ [tvl_hourly_row (topOfHour now) p.2] := by
  rw [tvl_main_ok now j raw ft hT, hp]
  dsimp only
  split <;> rfl

/-- Hourly file resulting from one revenue run with non-empty rows. -/
theorem revenue_main_hourly_eq (now : Int) (jr : PyVal)
    (rows : List (Int × Rat)) (fr : RevFiles) (latest : Int × Rat)
    (hk df hf : Bool) (hR : rev_rows jr = .ok rows)
    (hL : rows.getLast? = some latest) :
    ((revenue_main now jr fr hk df hf).files).hourly
      = if topOfHour now ∈ read_existing_hours fr.hourly then fr.hourly
        else fr.hourly
          ++ [rev_hourly_row (topOfHour now) latest.1 latest.2] := by
  rw [revenue_main_ok now jr rows fr hk df hf hR, hL]
  dsimp only
  split <;> rfl

/-- Recorded slot set after an append. -/
theorem read_existing_hours_append (l : List HourlyRow) (r : HourlyRow) :
    read_existing_hours (l ++ [r]) = read_existing_hours l ++ [r.slot_ts] := by
  simp [read_existing_hours]

/-- C6: with a usable series, a run whose current UTC hour slot is already in
the hourly log appends nothing, and a run whose slot is absent appends
exactly one row (carrying that slot); hence two runs within the same hour
append one row in total and a third run after the hour boundary advances
appends exactly one more, in the TVL workflow and in the revenue workflow
alike. -/
theorem C6_hourly_logger_idempotent
    (now now2 : Int) (j jr : PyVal) (ft : TvlFiles) (fr : RevFiles)
    (raw : List PyVal) (rows : List (Int × Rat))
    (hT : tvl_pick_series j = .ok raw)
    (hTne : (normalize_series raw).1 ≠ [])
    (hR : rev_rows jr = .ok rows) (hRne : rows ≠ [])
    (hk df hf : Bool) :
    (topOfHour now ∈ read_existing_hours ft.hourly →
      ((tvl_main now j ft).2).hourly = ft.hourly)
    ∧ (topOfHour now ∉ read_existing_hours ft.hourly →
      ∃ r : HourlyRow, r.slot_ts = topOfHour now
        ∧ ((tvl_main now j ft).2).hourly = ft.hourly ++ [r])
    ∧ (topOfHour now ∉ read_existing_hours ft.hourly →
      (((tvl_main now j ((tvl_main now j ft).2)).2).hourly).length
        = ft.hourly.length + 1)
    ∧ (topOfHour now ∉ read_existing_hours ft.hourly →
      topOfHour now2 ∉ read_existing_hours ft.hourly →
      topOfHour now2 ≠ topOfHour now →
      (((tvl_main now2 j ((tvl_main now j ((tvl_main now j ft).2)).2)).2).hourly).length
        = ft.hourly.length + 2)
    ∧ (topOfHour now ∈ read_existing_hours fr.hourly →
      ((revenue_main now jr fr hk df hf).files).hourly = fr.hourly)
    ∧ (topOfHour now ∉ read_existing_hours fr.hourly →
      ∃ r : HourlyRow, r.slot_ts = topOfHour now
        ∧ ((revenue_main now jr fr hk df hf).files).hourly
            = fr.hourly ++ [r])
    ∧ (topOfHour now ∉ read_existing_hours fr.hourly →
      (((revenue_main now jr
          ((revenue_main now jr fr hk df hf).files) hk df hf).files).hourly).length
        = fr.hourly.length + 1)
    ∧ (topOfHour now ∉ read_existing_hours fr.hourly →
      topOfHour now2 ∉ read_existing_hours fr.hourly →
      topOfHour now2 ≠ topOfHour now →
      (((revenue_main now2 jr
          ((revenue_main now jr
            ((revenue_main now jr fr hk df hf).files) hk df hf).files)
          hk df hf).files).hourly).length
        = fr.hourly.length + 2) := by
  obtain ⟨p, hp⟩ :=
    Option.isSome_iff_exists.mp (List.getLast?_isSome.mpr hTne)
  obtain ⟨q, hq⟩ :=
    Option.isSome_iff_exists.mp (List.getLast?_isSome.mpr hRne)
  have h1 := fun f => tvl_main_hourly_eq now j raw f p hT hp
  have h1b := fun f => tvl_main_hourly_eq now2 j raw f p hT hp
  have h2 := fun f => revenue_main_hourly_eq now jr rows f q hk df hf hR hq
  have h2b := fun f => revenue_main_hourly_eq now2 jr rows f q hk df hf hR hq
  have hmem1 : ∀ f : TvlFiles, topOfHour now ∉ read_existing_hours f.hourly →
      ((tvl_main now j f).2).hourly
        = f.hourly ++ [tvl_hourly_row (topOfHour now) p.2] := by
    intro f hne
    rw [h1 f, if_neg hne]
  have hmem2 : ∀ f : RevFiles, topOfHour now ∉ read_existing_hours f.hourly →
      ((revenue_main now jr f hk df hf).files).hourly
        = f.hourly ++ [rev_hourly_row (topOfHour now) q.1 q.2] := by
    intro f hne
    rw [h2 f, if_neg hne]
  refine ⟨?_, ?_, ?_, ?_, ?_, ?_, ?_, ?_⟩
  · intro hmem
    rw [h1 ft, if_pos hmem]
  · intro hnm
    exact ⟨tvl_hourly_row (topOfHour now) p.2, rfl, hmem1 ft hnm⟩
  · intro hnm
    have hrun1 := hmem1 ft hnm
    have hin : topOfHour now ∈ read_existing_hours ((tvl_main now j ft).2).hourly := by
      rw [hrun1, read_existing_hours_append]
      simp [tvl_hourly_row]
    rw [h1 _, if_pos hin, hrun1]
    simp
  · intro hnm hnm2 hne2
    have hrun1 := hmem1 ft hnm
    have hin : topOfHour now ∈ read_existing_hours ((tvl_main now j ft).2).hourly := by
      rw [hrun1, read_existing_hours_append]
      simp [tvl_hourly_row]
    have hrun2 : (((tvl_main now j ((tvl_main now j ft).2)).2)).hourly
        = ft.hourly ++ [tvl_hourly_row (topOfHour now) p.2] := by
      rw [h1 _, if_pos hin, hrun1]
    have hnm3 : topOfHour now2 ∉ read_existing_hours
        (((tvl_main now j ((tvl_main now j ft).2)).2)).hourly := by
      rw [hrun2, read_existing_hours_append]
      simp only [List.mem_append, List.mem_singleton, tvl_hourly_row]
      rintro (hc | hc)
      · exact hnm2 hc
      · exact hne2 hc
    rw [h1b _, if_neg hnm3, hrun2]
    simp
  · intro hmem
    rw [h2 fr, if_pos hmem]
  · intro hnm
    exact ⟨rev_hourly_row (topOfHour now) q.1 q.2, rfl, hmem2 fr hnm⟩
  · intro hnm
    have hrun1 := hmem2 fr hnm
    have hin : topOfHour now ∈ read_existing_hours
        ((revenue_main now jr fr hk df hf).files).hourly := by
      rw [hrun1, read_existing_hours_append]
      simp [rev_hourly_row]
    rw [h2 _, if_pos hin, hrun1]
    simp
  · intro hnm hnm2 hne2
    have hrun1 := hmem2 fr hnm
    have hin : topOfHour now ∈ read_existing_hours
        ((revenue_main now jr fr hk df hf).files).hourly := by
      rw [hrun1, read_existing_hours_append]
      simp [rev_hourly_row]
    have hrun2 : ((revenue_main now jr
        ((revenue_main now jr fr hk df hf).files) hk df hf).files).hourly
        = fr.hourly ++ [rev_hourly_row (topOfHour now) q.1 q.2] := by
      rw [h2 _, if_pos hin, hrun1]
    have hnm3 : topOfHour now2 ∉ read_existing_hours
        ((revenue_main now jr
          ((revenue_main now jr fr hk df hf).files) hk df hf).files).hourly := by
      rw [hrun2, read_existing_hours_append]
      simp only [List.mem_append, List.mem_singleton, rev_hourly_row]
      rintro (hc | hc)
      · exact hnm2 hc
      · exact hne2 hc
    rw [h2b _, if_neg hnm3, hrun2]
    simp

/-- C6 witness: the theorem applied at concrete inputs: a fresh slot at hour
five, a second run in the same hour, and a third run at hour six. -/
theorem C6_witness :
    topOfHour 18100 ∉ read_existing_hours ([] : List HourlyRow)
    ∧ (((tvl_main 21700
          (.vdict [(keyTvl, .vlist [.vlist [.vint 0, .vint 4]])])
          ((tvl_main 18100
            (.vdict [(keyTvl, .vlist [.vlist [.vint 0, .vint 4]])])
            ((tvl_main 18100
              (.vdict [(keyTvl, .vlist [.vlist [.vint 0, .vint 4]])])
              ⟨[], []⟩).2)).2)).2).hourly).length = 2 := by
  constructor
  · decide
  · exact (C6_hourly_logger_idempotent 18100 21700
      (.vdict [(keyTvl, .vlist [.vlist [.vint 0, .vint 4]])])
      (.vdict [(keyTotalDataChart, .vlist [.vlist [.vint 0, .vint 7]])])
      ⟨[], []⟩ ⟨[], []⟩
      [.vlist [.vint 0, .vint 4]] [(0, 7)]
      rfl (by decide) rfl (by decide)
      false false false).2.2.2.1 (by decide) (by decide) (by decide)

/-! ## Further helper lemmas for the dedup characterization -/

/-- Membership in the dedup output characterized by the last occurrence of
the key in the underlying row list. -/
theorem mem_dedupKeepLast_iff_getLast {rows : List (Int × Rat)} {d : Int}
    {v : Rat} :
    (d, v) ∈ dedupKeepLast rows ↔
      (rows.filter (fun q => decide (q.1 = d))).getLast? = some (d, v) := by
  rw [mem_dedupKeepLast]
  constructor
  · rintro ⟨hd, hv⟩
    obtain ⟨w, hw⟩ := filter_fst_getLast? hd
    have hwv : lastValFor rows d = w := lastValFor_eq_of_getLast? hw
    rw [hw, ← hv, hwv]
  · intro h
    constructor
    · obtain ⟨l2, hl2⟩ := List.getLast?_eq_some_iff.mp h
      have hmem : (d, v) ∈ rows.filter (fun q => decide (q.1 = d)) := by
        rw [hl2]
        exact List.mem_append_right _ (List.mem_singleton_self _)
      exact List.mem_map.mpr ⟨(d, v), (List.mem_filter.mp hmem).1, rfl⟩
    · exact lastValFor_eq_of_getLast? h

/-- Floor division to UTC days is monotone. -/
theorem epochDay_mono {a b : Int} (h : a ≤ b) : epochDay a ≤ epochDay b := by
  unfold epochDay
  omega

/-- The last row of the TVL daily file written from a timestamp-sorted,
non-empty series is the date of its last sample together with the value of
that sample. -/
theorem tvl_write_daily_getLast (series : List (Int × Rat)) (p : Int × Rat)
    (hs : List.Pairwise (fun a b : Int × Rat => a.1 ≤ b.1) series)
    (hp : series.getLast? = some p) :
    (tvl_write_daily series).getLast? = some (epochDay p.1, p.2) := by
  have hne : series ≠ [] := by
    obtain ⟨l2, hl2⟩ := List.getLast?_eq_some_iff.mp hp
    subst hl2
    exact List.append_ne_nil_of_right_ne_nil _ (List.cons_ne_nil _ _)
  have hplast : series.getLast hne = p := by
    have := List.getLast?_eq_getLast series hne
    rw [this] at hp
    exact Option.some.inj hp
  have hpm : p ∈ series := hplast ▸ List.getLast_mem hne
  set rows := series.map (fun p => (epochDay p.1, p.2)) with hrows
  have hmaxmem : epochDay p.1 ∈ rows.map Prod.fst := by
    rw [hrows, List.map_map]
    exact List.mem_map.mpr ⟨p, hpm, rfl⟩
  have hkeysmem : epochDay p.1 ∈ keysOf rows := mem_keysOf.mpr hmaxmem
  have hkne : keysOf rows ≠ [] := List.ne_nil_of_mem hkeysmem
  have hub : ∀ k ∈ keysOf rows, k ≤ epochDay p.1 := by
    intro k hk
    obtain ⟨x, hx, hxk⟩ := List.mem_map.mp (mem_keysOf.mp hk)
    obtain ⟨y, hy, hyx⟩ := List.mem_map.mp (hrows ▸ hx)
    have hle : y.1 ≤ p.1 := by
      have := key_le_getLast Prod.fst hs hy hne
      rw [hplast] at this
      exact this
    have : x.1 = epochDay y.1 := by rw [← hyx]
    rw [← hxk, this]
    exact epochDay_mono hle
  have hgl : (keysOf rows).getLast hkne = epochDay p.1 := by
    refine le_antisymm (hub _ (List.getLast_mem hkne)) ?_
    exact key_le_getLast (fun k : Int => k) (sorted_keysOf rows) hkeysmem hkne
  have hgl? : (keysOf rows).getLast? = some (epochDay p.1) := by
    rw [List.getLast?_eq_getLast _ hkne, hgl]
  have hlv : lastValFor rows (epochDay p.1) = p.2 := by
    have hrl : rows.getLast? = some (epochDay p.1, p.2) := by
      rw [hrows, List.getLast?_map, hp]
      rfl
    have hfl := getLast?_filter_of_getLast?
      (p := fun q => decide (q.1 = epochDay p.1)) hrl (by simp)
    exact lastValFor_eq_of_getLast? hfl
  rw [tvl_write_daily, dedupKeepLast_eq_map_keysOf, List.getLast?_map, ← hrows,
    hgl?]
  simp [hlv]

/-- Every successful rows result of the revenue workflow is a dedup output. -/
theorem rev_rows_shape {j : PyVal} {rows : List (Int × Rat)}
    (h : rev_rows j = .ok rows) : ∃ base, rows = dedupKeepLast base := by
  unfold rev_rows at h
  cases hh : prefer_hl1_from_breakdown j with
  | error m => rw [hh] at h; cases h
  | ok hl1 =>
    rw [hh] at h
    dsimp only at h
    by_cases he : hl1.isEmpty
    · rw [if_pos he] at h
      injection h with h2
      exact ⟨rev_pick_series j |>.filterMap rev_extract, h2.symm⟩
    · rw [if_neg he] at h
      injection h with h2
      exact ⟨hl1, h2.symm⟩

/-- The daily rows of a successful revenue run have strictly ascending dates
and their last row carries the maximal date. -/
theorem rev_rows_sorted {j : PyVal} {rows : List (Int × Rat)}
    (h : rev_rows j = .ok rows) :
    List.Pairwise (fun p q : Int × Rat => p.1 < q.1) rows := by
  obtain ⟨base, hb⟩ := rev_rows_shape h
  rw [hb]
  exact pairwise_lt_dedupKeepLast base

/-! ## Claim C3 -/

/-- C3 counterexample: the TVL input holds two samples of the same UTC day,
with the later-timestamped one first in input order. The retained daily value
is 1 (the maximum-timestamp occurrence), while the occurrence appearing last
in the input order has value 2: the TVL workflow does not retain the last
occurrence in original input order, because normalize_series sorts by
timestamp before the per-date dedup. -/
theorem C3_counterexample :
    tvl_write_daily ((normalize_series
        [.vlist [.vint 3600, .vint 1], .vlist [.vint 0, .vint 2]]).1)
      = [(0, 1)]
    ∧ ([.vlist [.vint 3600, .vint 1], .vlist [.vint 0, .vint 2]].filterMap
        extract_ts_val).getLast? = some (0, 2)
    ∧ ((1 : Rat) ≠ 2) := by
  refine ⟨by decide, by decide, by decide⟩

/-- C3 amended: in the revenue workflow the value retained for a date is
exactly the value of the coerced sample appearing last in the input order
among those with that date; in the TVL workflow the samples are first sorted
ascending by timestamp, so the retained value is the last occurrence in
sorted order — in particular an occurrence whose timestamp is strictly
greater than that of every other same-date occurrence wins, even when it is
not last in input order. -/
theorem C3_last_seen_wins_revenue_but_sorted_tvl :
    (∀ (arr : List PyVal) (d : Int) (v : Rat),
      (d, v) ∈ (normalize_to_rows arr).1 ↔
        ((arr.filterMap rev_extract).filter
          (fun q => decide (q.1 = d))).getLast? = some (d, v))
    ∧ (∀ (arr : List PyVal) (ts : Int) (v : Rat),
      (ts, v) ∈ arr.filterMap extract_ts_val →
      (∀ p ∈ arr.filterMap extract_ts_val,
        epochDay p.1 = epochDay ts → p = (ts, v) ∨ p.1 < ts) →
      (epochDay ts, v) ∈ tvl_write_daily ((normalize_series arr).1)) := by
  constructor
  · intro arr d v
    exact mem_dedupKeepLast_iff_getLast
  · intro arr ts v hmem hmax
    set S := arr.filterMap extract_ts_val with hS
    set s := List.insertionSort sampleLE S with hs
    have hsmem : (ts, v) ∈ s := (List.perm_insertionSort sampleLE S).mem_iff.mpr hmem
    set pred := fun p : Int × Rat => decide (epochDay p.1 = epochDay ts) with hpred
    have hfmem : (ts, v) ∈ s.filter pred := by
      refine List.mem_filter.mpr ⟨hsmem, ?_⟩
      simp [hpred]
    have hfne : s.filter pred ≠ [] := List.ne_nil_of_mem hfmem
    have hfsorted : List.Pairwise (fun a b : Int × Rat => a.1 ≤ b.1)
        (s.filter pred) := (sorted_sampleSort S).filter pred
    set q := (s.filter pred).getLast hfne with hqdef
    have hq? : (s.filter pred).getLast? = some q :=
      List.getLast?_eq_getLast _ hfne
    have hqf : q ∈ s.filter pred := List.getLast_mem hfne
    have hqS : q ∈ S :=
      (List.perm_insertionSort sampleLE S).mem_iff.mp
        (List.mem_filter.mp hqf).1
    have hqd : epochDay q.1 = epochDay ts := by
      have := (List.mem_filter.mp hqf).2
      simpa [hpred] using this
    have htsq : ts ≤ q.1 := key_le_getLast Prod.fst hfsorted hfmem hfne
    have hqeq : q = (ts, v) := by
      rcases hmax q hqS hqd with h | h
      · exact h
      · omega
    have hkey : (s.filter pred).getLast? = some (ts, v) := by
      rw [hq?, hqeq]
    show (epochDay ts, v) ∈ dedupKeepLast (s.map (fun p => (epochDay p.1, p.2)))
    rw [mem_dedupKeepLast_iff_getLast]
    have hcomm :
        (s.map (fun p => (epochDay p.1, p.2))).filter
            (fun r => decide (r.1 = epochDay ts))
          = (s.filter pred).map (fun p => (epochDay p.1, p.2)) := by
      rw [List.filter_map]
      rfl
    rw [hcomm, List.getLast?_map, hkey]
    rfl

/-- C3 witness: the amended theorem applied at concrete inputs: revenue dedup
retains the later of two same-day rows in input order, and the TVL dedup
retains the maximum-timestamp occurrence of the day. -/
theorem C3_witness :
    (((0 : Int), (9 : Rat)) ∈ (normalize_to_rows
      [.vlist [.vint 0, .vint 7], .vlist [.vint 3600, .vint 9]]).1)
    ∧ ((epochDay 3600, (1 : Rat)) ∈ tvl_write_daily ((normalize_series
        [.vlist [.vint 3600, .vint 1], .vlist [.vint 0, .vint 2]]).1)) := by
  constructor
  · exact (C3_last_seen_wins_revenue_but_sorted_tvl.1
      [.vlist [.vint 0, .vint 7], .vlist [.vint 3600, .vint 9]] 0 9).mpr
      (by decide)
  · exact C3_last_seen_wins_revenue_but_sorted_tvl.2
      [.vlist [.vint 3600, .vint 1], .vlist [.vint 0, .vint 2]] 3600 1
      (by decide) (by decide)

/-! ## Claim C7 -/

/-- C7 counterexample: a revenue run at 01:00 of day 1 whose daily series
ends on day 0 appends an hourly row whose date column is day 0, the most
recent daily date, not day 1, the calendar date of the hour slot, contrary to
the claim that every appended row carries the hour-slot date. -/
theorem C7_counterexample :
    ((revenue_main 90000
        (.vdict [(keyTotalDataChart, .vlist [.vlist [.vint 0, .vint 7]])])
        ⟨[], []⟩ false false false).files).hourly
      = [⟨90000, 0, "01", 7⟩]
    ∧ epochDay 90000 = 1
    ∧ ((0 : Int) ≠ 1) := by
  refine ⟨by decide, by decide, by decide⟩

/-- C7 amended: every appended hourly row carries the hour-slot timestamp
(wall clock truncated to the top of the hour), the hour-of-day of the slot
zero-padded to two digits, and the latest known value, namely the value of
the last row of the just-reconciled daily series, which is the row of the
most recent date; the date column however is the slot date only in the TVL
workflow, while the revenue workflow writes the most recent daily date
there. -/
theorem C7_hourly_row_contents
    (now : Int) (j jr : PyVal) (ft : TvlFiles) (fr : RevFiles)
    (raw : List PyVal) (rows : List (Int × Rat)) (p q : Int × Rat)
    (hT : tvl_pick_series j = .ok raw)
    (hp : ((normalize_series raw).1).getLast? = some p)
    (hR : rev_rows jr = .ok rows) (hq : rows.getLast? = some q)
    (hk df hf : Bool)
    (hfresh1 : topOfHour now ∉ read_existing_hours ft.hourly)
    (hfresh2 : topOfHour now ∉ read_existing_hours fr.hourly) :
    ((tvl_main now j ft).2).hourly
      = ft.hourly ++ [⟨topOfHour now, epochDay (topOfHour now),
          hour2 (hourOf (topOfHour now)), p.2⟩]
    ∧ topOfHour now % 3600 = 0
    ∧ (tvl_write_daily ((normalize_series raw).1)).getLast?
        = some (epochDay p.1, p.2)
    ∧ ((revenue_main now jr fr hk df hf).files).daily = rows
    ∧ ((revenue_main now jr fr hk df hf).files).hourly
        = fr.hourly ++ [⟨topOfHour now, q.1,
            hour2 (hourOf (topOfHour now)), q.2⟩]
    ∧ (∀ x ∈ rows, x.1 ≤ q.1) := by
  refine ⟨?_, ?_, ?_, ?_, ?_, ?_⟩
  · rw [tvl_main_hourly_eq now j raw ft p hT hp, if_neg hfresh1]
    rfl
  · unfold topOfHour
    omega
  · exact tvl_write_daily_getLast _ p (sorted_sampleSort _) hp
  · rw [revenue_main_ok now jr rows fr hk df hf hR, hq]
    dsimp only
    split <;> rfl
  · rw [revenue_main_hourly_eq now jr rows fr q hk df hf hR hq, if_neg hfresh2]
    rfl
  · intro x hx
    have hsorted : List.Pairwise (fun a b : Int × Rat => a.1 ≤ b.1) rows :=
      (rev_rows_sorted hR).imp (fun hab => le_of_lt hab)
    have hne : rows ≠ [] := by
      obtain ⟨l2, hl2⟩ := List.getLast?_eq_some_iff.mp hq
      subst hl2
      exact List.append_ne_nil_of_right_ne_nil _ (List.cons_ne_nil _ _)
    have hlast : rows.getLast hne = q := by
      have := List.getLast?_eq_getLast rows hne
      rw [this] at hq
      exact Option.some.inj hq
    have := key_le_getLast Prod.fst hsorted hx hne
    rw [hlast] at this
    exact this

/-- C7 witness: the amended theorem applied at concrete inputs: a TVL run
and a revenue run at 01:00 of day 1 with fresh hour slots. -/
theorem C7_witness :
    ((tvl_main 90000 (.vdict [(keyTvl, .vlist [.vlist [.vint 0, .vint 4]])])
        ⟨[], []⟩).2).hourly
      = [] ++ [⟨topOfHour 90000, epochDay (topOfHour 90000),
          hour2 (hourOf (topOfHour 90000)), (4 : Rat)⟩]
    ∧ ((revenue_main 90000
        (.vdict [(keyTotalDataChart, .vlist [.vlist [.vint 0, .vint 7]])])
        ⟨[], []⟩ false false false).files).hourly
      = [] ++ [⟨topOfHour 90000, (0 : Int),
          hour2 (hourOf (topOfHour 90000)), (7 : Rat)⟩] := by
  have h := C7_hourly_row_contents 90000
    (.vdict [(keyTvl, .vlist [.vlist [.vint 0, .vint 4]])])
    (.vdict [(keyTotalDataChart, .vlist [.vlist [.vint 0, .vint 7]])])
    ⟨[], []⟩ ⟨[], []⟩
    [.vlist [.vint 0, .vint 4]] [(0, 7)] (0, 4) (0, 7)
    rfl (by decide) rfl (by decide)
    false false false (by decide) (by decide)
  exact ⟨h.1, h.2.2.2.2.1⟩

end Hypurrfi
